import Mathlib

/-!
Verification of the watched-history subsystem of the YouTube-Commander
browser extension.

The embedding below mirrors the content script that owns the IndexedDB
store (`watchedVideos`, keyed by `videoId`), the identifier extractors,
the playback watcher (the `timeupdate` handler installed by
`handleVideoPlayback` / `setupVideoTracking`), the bulk import
(`importWatchedHistory`), and the popup file parsers (`handleFileImport`).

Modelling conventions:
* the object store is a list of records; the IndexedDB `put` with
  `keyPath: 'videoId'` is an overwrite-upsert on that key;
* `Date.now()` values are natural numbers (epoch milliseconds);
* media time positions (`video.currentTime`) are rationals (seconds);
* a record's `timestamp` field is `Option Nat` because one code path
  stores records without that field;
* JavaScript falsy string arguments (null / undefined / "") are modelled
  by `Option String` with `none` for null / undefined.
-/

namespace YTCommander

/-- A record of the `watchedVideos` object store.  `timestamp` is optional
because `importWatchedHistory` stores records that lack the field. -/
structure WatchedEntry where
  videoId : String
  timestamp : Option Nat
deriving DecidableEq, Repr

/-- The `watchedVideos` object store, keyed by `videoId`. -/
abbrev Store := List WatchedEntry

/-- IndexedDB `store.put` with `keyPath: 'videoId'`: overwrite the record
with the same key if present, otherwise append the new record. -/
def putRecord (s : Store) (e : WatchedEntry) : Store :=
  if s.any (fun x => x.videoId == e.videoId) then
    s.map (fun x => if x.videoId == e.videoId then e else x)
  else s ++ [e]

/-- IndexedDB `store.get(videoId)`: point lookup by key. -/
def getRecord (s : Store) (id : String) : Option WatchedEntry :=
  s.find? (fun x => x.videoId == id)

/-- `clearWatchedHistory`: `store.clear()` leaves an empty store. -/
def clearWatchedHistory : Store := []

/-- The store invariant: at most one record per `videoId`. -/
def keysNodup (s : Store) : Prop := (s.map (·.videoId)).Nodup

instance decKeysNodup (s : Store) : Decidable (keysNodup s) :=
  List.nodupDecidable (s.map (fun e : WatchedEntry => e.videoId))

/-- Whitespace as stripped by JavaScript `String.prototype.trim` (the
characters relevant to this code base). -/
def jsWhitespaceChar (c : Char) : Bool :=
  c == ' ' || c == '\t' || c == '\n' || c == '\r' || c == '\x0b' || c == '\x0c'

/-- JavaScript `s.trim()`: strip leading and trailing whitespace. -/
def jsTrim (s : String) : String :=
  String.mk (((s.toList.dropWhile jsWhitespaceChar).reverse.dropWhile
    jsWhitespaceChar).reverse)

/-- Split a character list at newline characters (JavaScript
`s.split('\n')`); always yields at least one (possibly empty) segment. -/
def splitLines : List Char → List (List Char)
  | [] => [[]]
  | c :: rest =>
    match splitLines rest with
    | [] => [[]]
    | l :: ls => if c = '\n' then [] :: l :: ls else (c :: l) :: ls

/-- JavaScript `content.split('\n')`. -/
def jsSplitNl (s : String) : List String :=
  (splitLines s.toList).map (fun cs => String.mk cs)

/-- `addToWatchedHistory(videoId)`: guarded by `if (!videoId) return;`,
then `store.put({ videoId, timestamp: Date.now() })`.  `none` models a
null / undefined argument. -/
def addToWatchedHistory (videoId : Option String) (now : Nat) (s : Store) : Store :=
  match videoId with
  | none => s
  | some id => if id = "" then s else putRecord s { videoId := id, timestamp := some now }

/-- One step of the `videoIds.forEach` loop of `importWatchedHistory`:
`if (videoId && videoId.trim())` then `store.put({ videoId: trimmedId })`
(no timestamp field) and `importCount++` when the trimmed id is absent
from the pre-batch snapshot `E` of existing ids. -/
def importStep (E : List String) (acc : Store × Nat) (vid : String) : Store × Nat :=
  if vid = "" then acc
  else if jsTrim vid = "" then acc
  else
    (putRecord acc.1 { videoId := jsTrim vid, timestamp := none },
     if jsTrim vid ∈ E then acc.2 else acc.2 + 1)

/-- `importWatchedHistory(videoIds)`: snapshot the existing ids once
(`getAllRequest` before the loop), then run the `forEach` loop; resolves
with `importCount`. -/
def importWatchedHistory (videoIds : List String) (s : Store) : Store × Nat :=
  videoIds.foldl (importStep (s.map (·.videoId))) (s, 0)

/-- The acceptance-and-novelty test realised by one `forEach` iteration of
`importWatchedHistory`, relative to the pre-batch id snapshot `E`. -/
def importAccepted (E : List String) (v : String) : Bool :=
  !(v == "") && !(jsTrim v == "") && !(E.contains (jsTrim v))

/-! ## Identifier extraction -/

/-- A character accepted by the capture group `[^&\/]+` of `getVideoId`. -/
def idChar (c : Char) : Bool := !(c == '&') && !(c == '/')

/-- The scan loop of the regex `(?:v=|\/shorts\/)([^&\/]+)`: at each
position try the alternative `v=`, then `/shorts/`; on a match take the
maximal nonempty run of capture characters, otherwise advance one
position (regex backtracking). -/
def videoScan : List Char → Option (List Char)
  | [] => none
  | c :: rest =>
    if ['v', '='].isPrefixOf (c :: rest) then
      let cap := ((c :: rest).drop 2).takeWhile idChar
      if cap = [] then videoScan rest else some cap
    else if ['/', 's', 'h', 'o', 'r', 't', 's', '/'].isPrefixOf (c :: rest) then
      let cap := ((c :: rest).drop 8).takeWhile idChar
      if cap = [] then videoScan rest else some cap
    else videoScan rest

/-- `getVideoId(url)` of the main content script: `if (!url) return null`
then `url.match(/(?:v=|\/shorts\/)([^&\/]+)/)`. -/
def getVideoId (url : String) : Option String :=
  if url = "" then none else (videoScan url.toList).map (fun cs => String.mk cs)

/-- The scan loop of the regex `[?&]v=([^&]+)` used by the refactored
watched-history module's `extractVideoId`. -/
def extractScan : List Char → Option (List Char)
  | [] => none
  | c :: rest =>
    if (c == '?' || c == '&') && ['v', '='].isPrefixOf rest then
      let cap := (rest.drop 2).takeWhile (fun d => !(d == '&'))
      if cap = [] then extractScan rest else some cap
    else extractScan rest

/-- `extractVideoId(url)` of the refactored module:
`url.match(/[?&]v=([^&]+)/)`, `null` on no match. -/
def extractVideoId (url : String) : Option String :=
  (extractScan url.toList).map (fun cs => String.mk cs)

/-! ## Identifier cache -/

/-- `videoIdCache`, a Map from url strings to extracted ids. -/
abbrev IdCache := List (String × String)

/-- `videoIdCache.get(url)` (after `has(url)`). -/
def cacheLookup (cache : IdCache) (url : String) : Option String :=
  (cache.find? (fun p => p.1 == url)).map (·.2)

/-- `getCachedVideoId(url)`: `if (!url) return null`; on a cache hit
return the cached id; otherwise compute `getVideoId(url)` and cache the
result only when it is non-null.  Returns the result together with the
updated cache. -/
def getCachedVideoId (cache : IdCache) (url : String) : Option String × IdCache :=
  if url = "" then (none, cache)
  else
    match cacheLookup cache url with
    | some v => (some v, cache)
    | none =>
      match getVideoId url with
      | some v => (some v, (url, v) :: cache)
      | none => (none, cache)

/-- Every cached value is the extraction result for its key.  This holds
for every reachable cache state because only non-null results of
`getVideoId` are ever inserted. -/
def cacheConsistent (cache : IdCache) : Prop :=
  ∀ p ∈ cache, getVideoId p.1 = some p.2

/-! ## Playback watcher -/

/-- State of one item-view of the playback watcher: the closure variables
`playTime` / `lastUpdateTime` of `setupVideoTracking`, the module-level
`processedVideos` set, the store, whether the `timeupdate` listener has
been removed, and the number of `addToWatchedHistory` calls made. -/
structure WatchState where
  store : Store
  processed : List String
  playTime : ℚ
  lastUpdateTime : ℚ
  detached : Bool
  writes : Nat
deriving DecidableEq, Repr

/-- The `timeUpdateHandler` closure for video `videoId`, observing media
time position `t` (with `Date.now() = now` at the moment of a write):
accumulate `currentTime - lastUpdateTime` only when the position strictly
advanced; on `playTime >= 2` and the id not yet in `processedVideos`,
add it to the set, call `addToWatchedHistory`, and remove the listener;
always set `lastUpdateTime = currentTime`. -/
def timeUpdateHandler (videoId : String) (now : Nat) (s : WatchState) (t : ℚ) : WatchState :=
  if s.detached then s
  else if s.lastUpdateTime < t then
    let pt := s.playTime + (t - s.lastUpdateTime)
    if 2 ≤ pt ∧ videoId ∉ s.processed then
      { store := addToWatchedHistory (some videoId) now s.store
        processed := videoId :: s.processed
        playTime := pt
        lastUpdateTime := t
        detached := true
        writes := s.writes + 1 }
    else { s with playTime := pt, lastUpdateTime := t }
  else { s with lastUpdateTime := t }

/-- Run the handler over a sequence of observed time positions. -/
def runUpdates (videoId : String) (now : Nat) (s : WatchState) (ts : List ℚ) : WatchState :=
  ts.foldl (timeUpdateHandler videoId now) s

/-- The watcher state installed by `setupVideoTracking`:
`let playTime = 0; let lastUpdateTime = 0;`, listener attached, no writes
performed yet. -/
def initWatchState (store : Store) (processed : List String) : WatchState :=
  { store := store
    processed := processed
    playTime := 0
    lastUpdateTime := 0
    detached := false
    writes := 0 }

/-- `handleVideoPlayback` for one item-view: return immediately when
`!videoId || processedVideos.has(videoId)`, otherwise install the tracker
and feed it the observed time positions. -/
def handleVideoPlayback (videoId : String) (now : Nat) (store : Store)
    (processed : List String) (ts : List ℚ) : WatchState :=
  if videoId = "" ∨ videoId ∈ processed then initWatchState store processed
  else runUpdates videoId now (initWatchState store processed) ts

/-- Total strictly-forward progress of a sequence of time positions
starting from position `last`: the sum of the positive position deltas. -/
def fwdSum (last : ℚ) : List ℚ → ℚ
  | [] => 0
  | t :: ts => (if last < t then t - last else 0) + fwdSum t ts

/-! ## Import file parsing (popup `handleFileImport`) -/

/-- Substring containment on character lists (JavaScript
`String.prototype.includes`). -/
def listContainsSub (pat : List Char) : List Char → Bool
  | [] => pat.isEmpty
  | c :: rest => pat.isPrefixOf (c :: rest) || listContainsSub pat rest

/-- JavaScript `s.includes(pat)`. -/
def containsSub (s pat : String) : Bool :=
  listContainsSub pat.toList s.toList

/-- The anchored regex `^"?([^",]+)"?` of the CSV branch: an optional
leading quote, then a maximal nonempty run of characters that are neither
a quote nor a comma. -/
def csvCapture (cs : List Char) : Option (List Char) :=
  let body := match cs with
    | '"' :: rest => rest
    | other => other
  let run := body.takeWhile (fun c => !(c == '"') && !(c == ','))
  if run = [] then none else some run

/-- First-column extraction for one CSV line:
`line.match(/^"?([^",]+)"?/)`, yielding `match[1]` or null. -/
def csvFirstCol (line : String) : Option String :=
  (csvCapture line.toList).map (fun cs => String.mk cs)

/-- The CSV branch of `handleFileImport`: keep nonblank lines, drop a
header line containing "Video ID", extract and trim the first column of
each line, and keep ids of length exactly 11. -/
def parseCsvIds (content : String) : List String :=
  let lines := (jsSplitNl content).filter (fun l => !(jsTrim l == ""))
  let dataLines := match lines with
    | [] => []
    | first :: rest => if containsSub first "Video ID" then rest else first :: rest
  (dataLines.filterMap (fun l => (csvFirstCol l).map (fun r => jsTrim r))).filter
    (fun id => !(id == "") && id.length == 11)

/-- The TXT branch of `handleFileImport`: trim each line and keep
nonempty ids whose length is between 10 and 12. -/
def parseTxtIds (content : String) : List String :=
  ((jsSplitNl content).map (fun l => jsTrim l)).filter
    (fun id => !(id == "") && decide (10 ≤ id.length) && decide (id.length ≤ 12))

/-! ## Store lemmas -/

theorem getRecord_putRecord (s : Store) (e : WatchedEntry) :
    getRecord (putRecord s e) e.videoId = some e := by
  induction s with
  | nil => simp [putRecord, getRecord]
  | cons x s ih =>
    by_cases h : x.videoId = e.videoId
    · simp [putRecord, getRecord, List.any_cons, h]
    · have hb : (x.videoId == e.videoId) = false := by simp [h]
      by_cases ha : s.any (fun y => y.videoId == e.videoId) = true
      · have h1 : putRecord (x :: s) e =
            x :: s.map (fun y => if y.videoId == e.videoId then e else y) := by
          simp [putRecord, List.any_cons, hb, ha, h]
        have h2 : putRecord s e =
            s.map (fun y => if y.videoId == e.videoId then e else y) := by
          simp [putRecord, ha]
        rw [h1, getRecord, List.find?_cons_of_neg _ (by simp [h]), ← getRecord, ← h2]
        exact ih
      · have ha' : s.any (fun y => y.videoId == e.videoId) = false := by
          simpa using ha
        have h1 : putRecord (x :: s) e = x :: (s ++ [e]) := by
          simp [putRecord, List.any_cons, hb, ha']
        have h2 : putRecord s e = s ++ [e] := by simp [putRecord, ha']
        rw [h1, getRecord, List.find?_cons_of_neg _ (by simp [h]), ← getRecord, ← h2]
        exact ih

theorem keys_putRecord (s : Store) (e : WatchedEntry) :
    (putRecord s e).map (·.videoId) =
      if s.any (fun x => x.videoId == e.videoId) then s.map (·.videoId)
      else s.map (·.videoId) ++ [e.videoId] := by
  by_cases ha : s.any (fun x => x.videoId == e.videoId) = true
  · simp only [putRecord, ha, if_true, List.map_map]
    refine List.map_congr_left ?_
    intro x _
    by_cases h : x.videoId = e.videoId
    · simp [h]
    · simp [h]
  · have ha' : s.any (fun x => x.videoId == e.videoId) = false := by simpa using ha
    simp [putRecord, ha']

theorem keysNodup_putRecord {s : Store} (h : keysNodup s) (e : WatchedEntry) :
    keysNodup (putRecord s e) := by
  unfold keysNodup at h ⊢
  rw [keys_putRecord]
  by_cases ha : s.any (fun x => x.videoId == e.videoId) = true
  · simpa [ha] using h
  · have ha' : s.any (fun x => x.videoId == e.videoId) = false := by simpa using ha
    have hnm : e.videoId ∉ s.map (·.videoId) := by
      intro hmem
      rcases List.mem_map.1 hmem with ⟨x, hx, hxe⟩
      have := List.any_eq_false.1 ha' x hx
      simp [hxe] at this
    simp [ha', List.nodup_append, h, hnm]

/-! ## Playback watcher lemmas -/

theorem fwdSum_nonneg (last : ℚ) (ts : List ℚ) : 0 ≤ fwdSum last ts := by
  induction ts generalizing last with
  | nil => simp [fwdSum]
  | cons t ts ih =>
    rw [fwdSum]
    have h1 : (0 : ℚ) ≤ if last < t then t - last else 0 := by
      split <;> [linarith; linarith]
    linarith [ih t]

theorem runUpdates_frozen (videoId : String) (now : Nat) (ts : List ℚ)
    (s : WatchState) (h : s.detached = true) :
    runUpdates videoId now s ts = s := by
  induction ts with
  | nil => rfl
  | cons t ts ih =>
    have hstep : timeUpdateHandler videoId now s t = s := by
      simp [timeUpdateHandler, h]
    simpa [runUpdates, List.foldl_cons, hstep] using ih

theorem runUpdates_below (videoId : String) (now : Nat) (ts : List ℚ) (s : WatchState)
    (hd : s.detached = false) (hw : s.writes = 0) (hp : videoId ∉ s.processed)
    (hpt : s.playTime < 2) (hlt : s.playTime + fwdSum s.lastUpdateTime ts < 2) :
    (runUpdates videoId now s ts).store = s.store
    ∧ (runUpdates videoId now s ts).writes = 0
    ∧ (runUpdates videoId now s ts).processed = s.processed
    ∧ (runUpdates videoId now s ts).playTime = s.playTime + fwdSum s.lastUpdateTime ts := by
  induction ts generalizing s with
  | nil =>
    refine ⟨rfl, hw, rfl, ?_⟩
    simp [runUpdates, fwdSum]
  | cons t ts ih =>
    rw [fwdSum] at hlt
    by_cases hadv : s.lastUpdateTime < t
    · rw [if_pos hadv] at hlt
      have hnn := fwdSum_nonneg t ts
      have hpt' : s.playTime + (t - s.lastUpdateTime) < 2 := by linarith
      have hstep : timeUpdateHandler videoId now s t =
          { s with playTime := s.playTime + (t - s.lastUpdateTime), lastUpdateTime := t } := by
        rw [timeUpdateHandler, if_neg (by simp [hd]), if_pos hadv, if_neg]
        intro hcon
        exact absurd hcon.1 (by linarith)
      have hrun : runUpdates videoId now s (t :: ts) =
          runUpdates videoId now
            { s with playTime := s.playTime + (t - s.lastUpdateTime), lastUpdateTime := t } ts := by
        simp [runUpdates, List.foldl_cons, hstep]
      obtain ⟨h1, h2, h3, h4⟩ :=
        ih { s with playTime := s.playTime + (t - s.lastUpdateTime), lastUpdateTime := t }
          hd hw hp hpt' (show s.playTime + (t - s.lastUpdateTime) + fwdSum t ts < 2 by linarith)
      rw [hrun]
      refine ⟨h1, h2, h3, ?_⟩
      rw [h4, fwdSum, if_pos hadv]
      show s.playTime + (t - s.lastUpdateTime) + fwdSum t ts =
        s.playTime + (t - s.lastUpdateTime + fwdSum t ts)
      ring
    · rw [if_neg hadv] at hlt
      have hstep : timeUpdateHandler videoId now s t = { s with lastUpdateTime := t } := by
        rw [timeUpdateHandler, if_neg (by simp [hd]), if_neg hadv]
      have hrun : runUpdates videoId now s (t :: ts) =
          runUpdates videoId now { s with lastUpdateTime := t } ts := by
        simp [runUpdates, List.foldl_cons, hstep]
      obtain ⟨h1, h2, h3, h4⟩ :=
        ih { s with lastUpdateTime := t } hd hw hp hpt
          (show s.playTime + fwdSum t ts < 2 by linarith)
      rw [hrun]
      refine ⟨h1, h2, h3, ?_⟩
      rw [h4, fwdSum, if_neg hadv]
      show s.playTime + fwdSum t ts = s.playTime + (0 + fwdSum t ts)
      ring

theorem runUpdates_reach (videoId : String) (now : Nat) (ts : List ℚ) (s : WatchState)
    (hd : s.detached = false) (hw : s.writes = 0) (hp : videoId ∉ s.processed)
    (hpt : s.playTime < 2) (hge : 2 ≤ s.playTime + fwdSum s.lastUpdateTime ts) :
    (runUpdates videoId now s ts).store = addToWatchedHistory (some videoId) now s.store
    ∧ (runUpdates videoId now s ts).writes = 1
    ∧ (runUpdates videoId now s ts).processed = videoId :: s.processed := by
  induction ts generalizing s with
  | nil =>
    rw [fwdSum] at hge
    exact absurd hge (by linarith)
  | cons t ts ih =>
    rw [fwdSum] at hge
    by_cases hadv : s.lastUpdateTime < t
    · rw [if_pos hadv] at hge
      by_cases hcross : 2 ≤ s.playTime + (t - s.lastUpdateTime)
      · have hstep : timeUpdateHandler videoId now s t =
            { store := addToWatchedHistory (some videoId) now s.store
              processed := videoId :: s.processed
              playTime := s.playTime + (t - s.lastUpdateTime)
              lastUpdateTime := t
              detached := true
              writes := s.writes + 1 } := by
          rw [timeUpdateHandler, if_neg (by simp [hd]), if_pos hadv,
            if_pos (And.intro hcross hp)]
        have hrun : runUpdates videoId now s (t :: ts) =
            runUpdates videoId now
              { store := addToWatchedHistory (some videoId) now s.store
                processed := videoId :: s.processed
                playTime := s.playTime + (t - s.lastUpdateTime)
                lastUpdateTime := t
                detached := true
                writes := s.writes + 1 } ts := by
          simp [runUpdates, List.foldl_cons, hstep]
        rw [hrun, runUpdates_frozen _ _ _ _ rfl]
        exact ⟨rfl, by simp [hw], rfl⟩
      · push_neg at hcross
        have hstep : timeUpdateHandler videoId now s t =
            { s with playTime := s.playTime + (t - s.lastUpdateTime), lastUpdateTime := t } := by
          rw [timeUpdateHandler, if_neg (by simp [hd]), if_pos hadv, if_neg]
          intro hcon
          exact absurd hcon.1 (by linarith)
        have hrun : runUpdates videoId now s (t :: ts) =
            runUpdates videoId now
              { s with playTime := s.playTime + (t - s.lastUpdateTime),
                       lastUpdateTime := t } ts := by
          simp [runUpdates, List.foldl_cons, hstep]
        rw [hrun]
        exact ih { s with playTime := s.playTime + (t - s.lastUpdateTime),
                          lastUpdateTime := t } hd hw hp hcross
          (show 2 ≤ s.playTime + (t - s.lastUpdateTime) + fwdSum t ts by linarith)
    · rw [if_neg hadv] at hge
      have hstep : timeUpdateHandler videoId now s t = { s with lastUpdateTime := t } := by
        rw [timeUpdateHandler, if_neg (by simp [hd]), if_neg hadv]
      have hrun : runUpdates videoId now s (t :: ts) =
          runUpdates videoId now { s with lastUpdateTime := t } ts := by
        simp [runUpdates, List.foldl_cons, hstep]
      rw [hrun]
      exact ih { s with lastUpdateTime := t } hd hw hp hpt
        (show 2 ≤ s.playTime + fwdSum t ts by linarith)

theorem playTime_le_fwdSum (videoId : String) (now : Nat) (ts : List ℚ) (s : WatchState) :
    (runUpdates videoId now s ts).playTime ≤ s.playTime + fwdSum s.lastUpdateTime ts := by
  induction ts generalizing s with
  | nil => simp [runUpdates, fwdSum]
  | cons t ts ih =>
    have hnn := fwdSum_nonneg t ts
    by_cases hd : s.detached = true
    · rw [fwdSum, runUpdates_frozen _ _ _ _ hd]
      have h1 : (0 : ℚ) ≤ if s.lastUpdateTime < t then t - s.lastUpdateTime else 0 := by
        split <;> [linarith; linarith]
      linarith
    · have hd' : s.detached = false := by simpa using hd
      by_cases hadv : s.lastUpdateTime < t
      · by_cases hcross : 2 ≤ s.playTime + (t - s.lastUpdateTime) ∧ videoId ∉ s.processed
        · have hstep : timeUpdateHandler videoId now s t =
              { store := addToWatchedHistory (some videoId) now s.store
                processed := videoId :: s.processed
                playTime := s.playTime + (t - s.lastUpdateTime)
                lastUpdateTime := t
                detached := true
                writes := s.writes + 1 } := by
            rw [timeUpdateHandler, if_neg (by simp [hd']), if_pos hadv, if_pos hcross]
          have hrun : runUpdates videoId now s (t :: ts) =
              runUpdates videoId now
                { store := addToWatchedHistory (some videoId) now s.store
                  processed := videoId :: s.processed
                  playTime := s.playTime + (t - s.lastUpdateTime)
                  lastUpdateTime := t
                  detached := true
                  writes := s.writes + 1 } ts := by
            simp [runUpdates, List.foldl_cons, hstep]
          rw [hrun, runUpdates_frozen _ _ _ _ rfl, fwdSum, if_pos hadv]
          simp only
          linarith
        · have hstep : timeUpdateHandler videoId now s t =
              { s with playTime := s.playTime + (t - s.lastUpdateTime),
                       lastUpdateTime := t } := by
            rw [timeUpdateHandler, if_neg (by simp [hd']), if_pos hadv, if_neg hcross]
          have hrun : runUpdates videoId now s (t :: ts) =
              runUpdates videoId now
                { s with playTime := s.playTime + (t - s.lastUpdateTime),
                         lastUpdateTime := t } ts := by
            simp [runUpdates, List.foldl_cons, hstep]
          rw [hrun, fwdSum, if_pos hadv]
          have := ih { s with playTime := s.playTime + (t - s.lastUpdateTime),
                              lastUpdateTime := t }
          simp only at this
          linarith
      · have hstep : timeUpdateHandler videoId now s t = { s with lastUpdateTime := t } := by
          rw [timeUpdateHandler, if_neg (by simp [hd']), if_neg hadv]
        have hrun : runUpdates videoId now s (t :: ts) =
            runUpdates videoId now { s with lastUpdateTime := t } ts := by
          simp [runUpdates, List.foldl_cons, hstep]
        rw [hrun, fwdSum, if_neg hadv]
        have := ih { s with lastUpdateTime := t }
        simp only at this
        linarith

/-! ## Import lemmas -/

theorem importFold_count (E : List String) (vids : List String) :
    ∀ (σ : Store) (c : Nat),
      (vids.foldl (importStep E) (σ, c)).2 = c + vids.countP (importAccepted E) := by
  induction vids with
  | nil => intro σ c; simp
  | cons v vids ih =>
    intro σ c
    rw [List.foldl_cons, List.countP_cons]
    by_cases h1 : v = ""
    · have hacc : importAccepted E v = false := by simp [importAccepted, h1]
      rw [importStep, if_pos h1, ih σ c, hacc]
      simp
    · by_cases h2 : jsTrim v = ""
      · have hacc : importAccepted E v = false := by simp [importAccepted, h2]
        rw [importStep, if_neg h1, if_pos h2, ih σ c, hacc]
        simp
      · by_cases h3 : jsTrim v ∈ E
        · have hacc : importAccepted E v = false := by simp [importAccepted, h3]
          rw [importStep, if_neg h1, if_neg h2, ih, if_pos h3, hacc]
          simp
        · have hacc : importAccepted E v = true := by simp [importAccepted, h1, h2, h3]
          rw [importStep, if_neg h1, if_neg h2, ih, if_neg h3, hacc]
          simp
          omega

theorem importFold_keysNodup (E : List String) (vids : List String) :
    ∀ (σ : Store) (c : Nat), keysNodup σ →
      keysNodup (vids.foldl (importStep E) (σ, c)).1 := by
  induction vids with
  | nil => intro σ c h; exact h
  | cons v vids ih =>
    intro σ c h
    rw [List.foldl_cons]
    by_cases h1 : v = ""
    · rw [importStep, if_pos h1]; exact ih σ c h
    · by_cases h2 : jsTrim v = ""
      · rw [importStep, if_neg h1, if_pos h2]; exact ih σ c h
      · rw [importStep, if_neg h1, if_neg h2]
        exact ih _ _ (keysNodup_putRecord h _)

/-! ## Theorems for the claims -/

/-- C1: the spec asserts that `importMany` counts each distinct new
identifier once, so that importing `[A, B, A]` into a store containing
neither id returns 2.  In the code the set of pre-existing ids is
snapshotted once before the loop and never extended during the batch, so
the second occurrence of A is counted again: the batch returns 3, while
`getAll()` does contain exactly one entry for A and one for B. -/
theorem importMany_dedup_counterexample :
    (importWatchedHistory ["AAAAAAAAAAA", "BBBBBBBBBBB", "AAAAAAAAAAA"] []).2 = 3
    ∧ (importWatchedHistory ["AAAAAAAAAAA", "BBBBBBBBBBB", "AAAAAAAAAAA"] []).2 ≠ 2
    ∧ ((importWatchedHistory ["AAAAAAAAAAA", "BBBBBBBBBBB", "AAAAAAAAAAA"] []).1.map
        (·.videoId)) = ["AAAAAAAAAAA", "BBBBBBBBBBB"] := by
  refine ⟨by decide, by decide, by decide⟩

/-- C1 (amended): `importWatchedHistory` returns the number of accepted
candidate occurrences whose trimmed id was absent from the store when
the batch began — duplicates of a new id inside one batch are counted
once per occurrence — and the store still holds at most one entry per
id afterwards. -/
theorem importMany_count_spec (videoIds : List String) (s : Store) (h : keysNodup s) :
    (importWatchedHistory videoIds s).2 =
      videoIds.countP (importAccepted (s.map (·.videoId)))
    ∧ keysNodup (importWatchedHistory videoIds s).1 := by
  constructor
  · rw [importWatchedHistory, importFold_count]
    simp
  · exact importFold_keysNodup _ _ _ _ h

/-- C1 witness: the amended statement evaluated on the `[A, B, A]` batch
against the empty store. -/
theorem importMany_count_spec_witness :
    (importWatchedHistory ["AAAAAAAAAAA", "BBBBBBBBBBB", "AAAAAAAAAAA"] []).2 =
      (["AAAAAAAAAAA", "BBBBBBBBBBB", "AAAAAAAAAAA"].countP
        (importAccepted (([] : Store).map (·.videoId))))
    ∧ keysNodup (importWatchedHistory ["AAAAAAAAAAA", "BBBBBBBBBBB", "AAAAAAAAAAA"] []).1 :=
  importMany_count_spec ["AAAAAAAAAAA", "BBBBBBBBBBB", "AAAAAAAAAAA"] [] (by decide)

/-- C5: `put` is an overwrite-upsert on the key: after two `put` calls
for the same id the store holds exactly one entry for that id, carrying
the second call's timestamp, and neither `put`, nor bulk import, nor
`clear` can make two entries share an id. -/
theorem put_idempotent_key_unique (s : Store) (id : String) (t1 t2 : Nat)
    (e : WatchedEntry) (vids : List String) (h : keysNodup s) :
    (((putRecord (putRecord s ⟨id, some t1⟩) ⟨id, some t2⟩).map (·.videoId)).count id = 1)
    ∧ getRecord (putRecord (putRecord s ⟨id, some t1⟩) ⟨id, some t2⟩) id =
        some ⟨id, some t2⟩
    ∧ keysNodup (putRecord s e)
    ∧ keysNodup (importWatchedHistory vids s).1
    ∧ keysNodup clearWatchedHistory := by
  have hnd : keysNodup (putRecord (putRecord s ⟨id, some t1⟩) ⟨id, some t2⟩) :=
    keysNodup_putRecord (keysNodup_putRecord h _) _
  have hget : getRecord (putRecord (putRecord s ⟨id, some t1⟩) ⟨id, some t2⟩) id =
      some ⟨id, some t2⟩ := getRecord_putRecord _ ⟨id, some t2⟩
  refine ⟨?_, hget, keysNodup_putRecord h e, importFold_keysNodup _ _ _ _ h, by simp [keysNodup, clearWatchedHistory]⟩
  have hmem : (⟨id, some t2⟩ : WatchedEntry) ∈
      putRecord (putRecord s ⟨id, some t1⟩) ⟨id, some t2⟩ := by
    have := hget
    rw [getRecord] at this
    exact List.mem_of_find?_eq_some this
  have hkey : id ∈ (putRecord (putRecord s ⟨id, some t1⟩) ⟨id, some t2⟩).map (·.videoId) :=
    List.mem_map.2 ⟨⟨id, some t2⟩, hmem, rfl⟩
  exact List.count_eq_one_of_mem hnd hkey

/-- C5 witness: two `put` calls for a concrete id on the empty store. -/
theorem put_idempotent_key_unique_witness :
    (((putRecord (putRecord [] ⟨"dQw4w9WgXcQ", some 1⟩) ⟨"dQw4w9WgXcQ", some 2⟩).map
        (·.videoId)).count "dQw4w9WgXcQ" = 1)
    ∧ getRecord (putRecord (putRecord [] ⟨"dQw4w9WgXcQ", some 1⟩) ⟨"dQw4w9WgXcQ", some 2⟩)
        "dQw4w9WgXcQ" = some ⟨"dQw4w9WgXcQ", some 2⟩
    ∧ keysNodup (putRecord [] ⟨"x", some 3⟩)
    ∧ keysNodup (importWatchedHistory ["dQw4w9WgXcQ"] []).1
    ∧ keysNodup clearWatchedHistory :=
  put_idempotent_key_unique [] "dQw4w9WgXcQ" 1 2 ⟨"x", some 3⟩ ["dQw4w9WgXcQ"] (by decide)

/-- C6: the claim says every imported entry carries the current import
time as its timestamp; `importWatchedHistory` in fact executes
`store.put({ videoId: trimmedId })` with no timestamp at all, so a
fresh import stores a record without a timestamp and importing an id
that already has a timestamp erases it. -/
theorem import_entry_has_no_timestamp :
    getRecord (importWatchedHistory ["dQw4w9WgXcQ"] []).1 "dQw4w9WgXcQ" =
      some ⟨"dQw4w9WgXcQ", none⟩
    ∧ getRecord (importWatchedHistory ["dQw4w9WgXcQ"] [⟨"dQw4w9WgXcQ", some 500⟩]).1
        "dQw4w9WgXcQ" = some ⟨"dQw4w9WgXcQ", none⟩ := by
  refine ⟨by decide, by decide⟩

/-- C2: for one item-view started from position 0, the watcher performs
no store write while the accumulated forward progress is below 2 seconds,
and performs exactly one write (for this identifier) as soon as it
reaches 2 seconds, with no second write afterwards in the same
item-view. -/
theorem watcher_threshold_gating (videoId : String) (now : Nat) (store : Store)
    (ts : List ℚ) :
    (runUpdates videoId now (initWatchState store []) ts).writes =
      (if 2 ≤ fwdSum 0 ts then 1 else 0)
    ∧ (runUpdates videoId now (initWatchState store []) ts).store =
      (if 2 ≤ fwdSum 0 ts then addToWatchedHistory (some videoId) now store else store) := by
  by_cases h : 2 ≤ fwdSum 0 ts
  · obtain ⟨h1, h2, h3⟩ := runUpdates_reach videoId now ts (initWatchState store [])
      rfl rfl (by simp [initWatchState])
      (show (0 : ℚ) < 2 by norm_num)
      (show (2 : ℚ) ≤ 0 + fwdSum 0 ts by linarith)
    rw [if_pos h, if_pos h]
    exact ⟨h2, h1⟩
  · push_neg at h
    obtain ⟨h1, h2, h3, h4⟩ := runUpdates_below videoId now ts (initWatchState store [])
      rfl rfl (by simp [initWatchState])
      (show (0 : ℚ) < 2 by norm_num)
      (show (0 : ℚ) + fwdSum 0 ts < 2 by linarith)
    rw [if_neg (not_le.2 h), if_neg (not_le.2 h)]
    exact ⟨h2, h1⟩

/-- C3: the play-time counter of one item-view accumulates only strictly
forward position deltas: a non-advancing update (backward seek or
repeated position) never increases it, and it never exceeds the total
strictly-forward progress of the observed update sequence. -/
theorem watcher_counts_only_forward (videoId : String) (now : Nat) (store : Store)
    (ts : List ℚ) :
    (runUpdates videoId now (initWatchState store []) ts).playTime ≤ fwdSum 0 ts
    ∧ ∀ (s : WatchState) (t : ℚ), ¬ s.lastUpdateTime < t →
        (timeUpdateHandler videoId now s t).playTime = s.playTime := by
  constructor
  · have h := playTime_le_fwdSum videoId now ts (initWatchState store [])
    calc (runUpdates videoId now (initWatchState store []) ts).playTime
        ≤ (initWatchState store []).playTime
            + fwdSum (initWatchState store []).lastUpdateTime ts := h
      _ = fwdSum 0 ts := by
            show (0 : ℚ) + fwdSum 0 ts = fwdSum 0 ts
            ring
  · intro s t h
    by_cases hd : s.detached
    · simp [timeUpdateHandler, hd]
    · simp [timeUpdateHandler, hd, h]

/-- C3 witness: the general bound applied to a backward-seek trace, and
the no-increase clause applied to a concrete non-advancing update. -/
theorem watcher_counts_only_forward_witness :
    (runUpdates "dQw4w9WgXcQ" 1000 (initWatchState [] []) [3, 1, 2]).playTime ≤
      fwdSum 0 [3, 1, 2]
    ∧ (timeUpdateHandler "dQw4w9WgXcQ" 1000 (initWatchState [] []) 0).playTime =
      (initWatchState [] []).playTime :=
  ⟨(watcher_counts_only_forward "dQw4w9WgXcQ" 1000 [] [3, 1, 2]).1,
   (watcher_counts_only_forward "dQw4w9WgXcQ" 1000 [] []).2 (initWatchState [] []) 0
     (show ¬ (0 : ℚ) < 0 by norm_num)⟩

/-- Helper: a watcher session whose id is valid, not yet in the
in-memory set, and whose trace accumulates at least 2 seconds of forward
progress, ends with `put({ videoId, timestamp: now })` applied to the
store. -/
theorem handleVideoPlayback_writes (id : String) (now : Nat) (store : Store)
    (processed : List String) (ts : List ℚ) (hid : id ≠ "") (hp : id ∉ processed)
    (hge : 2 ≤ fwdSum 0 ts) :
    (handleVideoPlayback id now store processed ts).store =
      putRecord store ⟨id, some now⟩ := by
  rw [handleVideoPlayback, if_neg (by simp [hid, hp])]
  obtain ⟨h1, h2, h3⟩ := runUpdates_reach id now ts (initWatchState store processed)
    rfl rfl (by simpa [initWatchState] using hp)
    (show (0 : ℚ) < 2 by norm_num)
    (show (2 : ℚ) ≤ 0 + fwdSum 0 ts by linarith)
  rw [h1]
  show addToWatchedHistory (some id) now store = putRecord store ⟨id, some now⟩
  simp [addToWatchedHistory, hid]

/-- C8: the claim states the playback watcher never overwrites the
first-watched timestamp when it observes the same id again in a later
session.  The "already counted" set is only in-memory, so a later
session starts with a fresh set and `addToWatchedHistory` is an
unconditional overwrite-upsert: re-watching `dQw4w9WgXcQ` in a second
session replaces the first-watched timestamp 1000 by 2000. -/
theorem watcher_rewatch_counterexample :
    getRecord (handleVideoPlayback "dQw4w9WgXcQ" 1000 [] [] [1, 3]).store "dQw4w9WgXcQ"
      = some ⟨"dQw4w9WgXcQ", some 1000⟩
    ∧ getRecord (handleVideoPlayback "dQw4w9WgXcQ" 2000
        (handleVideoPlayback "dQw4w9WgXcQ" 1000 [] [] [1, 3]).store [] [1, 3]).store
        "dQw4w9WgXcQ" = some ⟨"dQw4w9WgXcQ", some 2000⟩
    ∧ (1000 : Nat) ≠ 2000 := by
  have hge : (2 : ℚ) ≤ fwdSum 0 [1, 3] := by norm_num [fwdSum]
  have h1 := handleVideoPlayback_writes "dQw4w9WgXcQ" 1000 [] [] [1, 3]
    (by decide) (by simp) hge
  have h2 := handleVideoPlayback_writes "dQw4w9WgXcQ" 2000
    (handleVideoPlayback "dQw4w9WgXcQ" 1000 [] [] [1, 3]).store [] [1, 3]
    (by decide) (by simp) hge
  refine ⟨?_, ?_, by decide⟩
  · rw [h1]; decide
  · rw [h2, h1]; decide

/-- C8 (amended): within one item-view the in-memory set keeps the
watcher from writing the same id twice, and a sub-threshold session
leaves the store untouched; but any session whose in-memory set does not
contain the id (in particular every later browser session) that again
accumulates the 2-second threshold overwrites the stored timestamp with
that session's write time; bulk import may overwrite it as well. -/
theorem watcher_timestamp_lifecycle (id : String) (now : Nat) (store : Store)
    (processed : List String) (ts : List ℚ) (hid : id ≠ "") :
    (id ∈ processed → (handleVideoPlayback id now store processed ts).store = store)
    ∧ (fwdSum 0 ts < 2 → (handleVideoPlayback id now store processed ts).store = store)
    ∧ (id ∉ processed → 2 ≤ fwdSum 0 ts →
        getRecord (handleVideoPlayback id now store processed ts).store id =
          some ⟨id, some now⟩) := by
  refine ⟨?_, ?_, ?_⟩
  · intro hp
    rw [handleVideoPlayback, if_pos (Or.inr hp)]
    rfl
  · intro hlt
    by_cases hp : id ∈ processed
    · rw [handleVideoPlayback, if_pos (Or.inr hp)]
      rfl
    · rw [handleVideoPlayback, if_neg (by simp [hid, hp])]
      obtain ⟨h1, h2, h3, h4⟩ := runUpdates_below id now ts (initWatchState store processed)
        rfl rfl (by simpa [initWatchState] using hp)
        (show (0 : ℚ) < 2 by norm_num)
        (show (0 : ℚ) + fwdSum 0 ts < 2 by linarith)
      exact h1
  · intro hp hge
    rw [handleVideoPlayback_writes id now store processed ts hid hp hge]
    exact getRecord_putRecord store ⟨id, some now⟩

/-- C8 witness: the amended statement at a concrete store that already
holds an entry with an older timestamp. -/
theorem watcher_timestamp_lifecycle_witness :
    ("dQw4w9WgXcQ" ∈ ["dQw4w9WgXcQ"] →
      (handleVideoPlayback "dQw4w9WgXcQ" 2000 [⟨"dQw4w9WgXcQ", some 1000⟩]
        ["dQw4w9WgXcQ"] [1, 3]).store = [⟨"dQw4w9WgXcQ", some 1000⟩])
    ∧ (fwdSum 0 [1, 3] < 2 →
      (handleVideoPlayback "dQw4w9WgXcQ" 2000 [⟨"dQw4w9WgXcQ", some 1000⟩]
        ["dQw4w9WgXcQ"] [1, 3]).store = [⟨"dQw4w9WgXcQ", some 1000⟩])
    ∧ ("dQw4w9WgXcQ" ∉ ["dQw4w9WgXcQ"] → 2 ≤ fwdSum 0 [1, 3] →
      getRecord (handleVideoPlayback "dQw4w9WgXcQ" 2000 [⟨"dQw4w9WgXcQ", some 1000⟩]
        ["dQw4w9WgXcQ"] [1, 3]).store "dQw4w9WgXcQ" =
        some ⟨"dQw4w9WgXcQ", some 2000⟩) :=
  watcher_timestamp_lifecycle "dQw4w9WgXcQ" 2000 [⟨"dQw4w9WgXcQ", some 1000⟩]
    ["dQw4w9WgXcQ"] [1, 3] (by decide)

/-- C9: `addToWatchedHistory` called with a null / undefined or empty
identifier returns without writing: the store is unchanged (and the
function neither consults nor updates the in-memory `processedVideos`
set, which it does not receive at all). -/
theorem addToWatchedHistory_missing_id_noop (now : Nat) (store : Store) :
    addToWatchedHistory none now store = store
    ∧ addToWatchedHistory (some "") now store = store := by
  constructor
  · rfl
  · simp [addToWatchedHistory]

/-- C4: the extractor recognises the query-parameter shape and the
path-segment shape and yields null otherwise: both example URLs yield
the id and the plain page URL yields none.  (The auxiliary
`extractVideoId` of the refactored module, which the scanner only ever
applies to query-form links, agrees on the query-parameter shape.) -/
theorem extractId_recognizes_both_shapes :
    getVideoId "https://site/watch?v=XXXXXXXXXXX" = some "XXXXXXXXXXX"
    ∧ getVideoId "https://site/shorts/XXXXXXXXXXX" = some "XXXXXXXXXXX"
    ∧ getVideoId "https://site/about" = none
    ∧ extractVideoId "https://site/watch?v=XXXXXXXXXXX" = some "XXXXXXXXXXX" := by
  refine ⟨by decide, by decide, by decide, by decide⟩

/-- C7: the claim says a candidate is accepted exactly when its trimmed
length is between 10 and 12, regardless of file format.  The CSV branch
of `handleFileImport` accepts only ids of length exactly 11: the 10
character id `ABCDEFGHIJ` is accepted from a TXT file but rejected from
a CSV file with the very same content. -/
theorem import_length_rule_counterexample :
    parseTxtIds "ABCDEFGHIJ" = ["ABCDEFGHIJ"]
    ∧ parseCsvIds "ABCDEFGHIJ" = []
    ∧ (jsTrim "ABCDEFGHIJ").length = 10 := by
  refine ⟨by decide, by decide, by decide⟩

/-- C7 (amended): the 10-to-12 trimmed-length rule governs only the TXT
(legacy) format; the CSV branch instead accepts a line only if its
extracted first-column value has length exactly 11. -/
theorem import_length_rule_by_format (content : String) (id : String) :
    (id ∈ parseTxtIds content ↔
      (∃ l ∈ jsSplitNl content, jsTrim l = id)
        ∧ id ≠ "" ∧ 10 ≤ id.length ∧ id.length ≤ 12)
    ∧ (id ∈ parseCsvIds content → id ≠ "" ∧ id.length = 11) := by
  constructor
  · simp [parseTxtIds, List.mem_filter, List.mem_map, and_assoc]
  · intro hmem
    simp only [parseCsvIds, List.mem_filter] at hmem
    have hp := hmem.2
    simp at hp
    exact hp

/-- C7 witness: the amended characterisation applied to a concrete file
content and candidate. -/
theorem import_length_rule_by_format_witness :
    ("ABCDEFGHIJ" ∈ parseTxtIds "ABCDEFGHIJ" ↔
      (∃ l ∈ jsSplitNl "ABCDEFGHIJ", jsTrim l = "ABCDEFGHIJ")
        ∧ "ABCDEFGHIJ" ≠ "" ∧ 10 ≤ ("ABCDEFGHIJ" : String).length
        ∧ ("ABCDEFGHIJ" : String).length ≤ 12)
    ∧ ("ABCDEFGHIJ" ∈ parseCsvIds "ABCDEFGHIJ" →
        "ABCDEFGHIJ" ≠ "" ∧ ("ABCDEFGHIJ" : String).length = 11) :=
  import_length_rule_by_format "ABCDEFGHIJ" "ABCDEFGHIJ"

/-- C10: under the reachable-cache invariant (every cached value is the
extraction result of its key), the memoised `getCachedVideoId` returns
exactly `getVideoId(url)` and preserves the invariant, so memoisation
never changes an extraction result. -/
theorem getCachedVideoId_transparent (cache : IdCache) (url : String)
    (h : cacheConsistent cache) :
    (getCachedVideoId cache url).1 = getVideoId url
    ∧ cacheConsistent (getCachedVideoId cache url).2 := by
  unfold getCachedVideoId
  by_cases hu : url = ""
  · subst hu
    rw [if_pos rfl]
    refine ⟨?_, h⟩
    rw [getVideoId, if_pos rfl]
  · rw [if_neg hu]
    cases hc : cacheLookup cache url with
    | none =>
      cases hg : getVideoId url with
      | none => exact ⟨rfl, h⟩
      | some v =>
        refine ⟨rfl, ?_⟩
        intro p hp
        rcases List.mem_cons.1 hp with h1 | h1
        · rw [h1]
          exact hg
        · exact h p h1
    | some v =>
      refine ⟨?_, h⟩
      rcases (by simpa [cacheLookup] using hc :
          ∃ a, List.find? (fun p => p.1 == url) cache = some (a, v)) with ⟨a, hfind⟩
      have hmem := List.mem_of_find?_eq_some hfind
      have hkey : a = url := by simpa using List.find?_some hfind
      have hval := h (a, v) hmem
      rw [hkey] at hval
      exact hval.symm

/-- C10 witness: transparency of the cache on the empty (hence
consistent) cache at a concrete URL. -/
theorem getCachedVideoId_transparent_witness :
    (getCachedVideoId [] "https://site/watch?v=abc").1 =
      getVideoId "https://site/watch?v=abc"
    ∧ cacheConsistent (getCachedVideoId [] "https://site/watch?v=abc").2 :=
  getCachedVideoId_transparent [] "https://site/watch?v=abc"
    (by intro p hp; cases hp)

end YTCommander
